import Mathlib

/-!
Shallow embedding of the core of the `veris-memory-mcp-server` repository
(Python), together with theorems settling the frozen claims about its
specification.

The embedding follows the source files:
* `src/veris_memory_mcp_server/protocol/schemas.py` and
  `src/veris_memory_mcp_server/protocol/handlers.py` (JSON-RPC envelope and
  request routing),
* `src/veris_memory_mcp_server/client/veris_client.py` (retry decorator and
  context-type mapping policy),
* `build/lib/veris_memory_mcp_server/utils/cache.py` (TTL+LRU memory cache
  and the cached-client invalidation hook),
* `src/veris_memory_mcp_server/webhooks/delivery.py` and
  `src/veris_memory_mcp_server/webhooks/manager.py` (webhook delivery with
  retries, event queue).

Python dictionaries are modelled as association lists with unique keys
(insertion-ordered, as in CPython); JSON values as an inductive `JsonVal`;
wall-clock time (`time.time()`) as an explicit rational `now` parameter.
-/

namespace VerisMCP

/-- JSON-like values, the serialized wire form of dictionaries.
Numbers are modelled as integers (no claim depends on float values). -/
inductive JsonVal where
  | null : JsonVal
  | bool (b : Bool) : JsonVal
  | num (n : Int) : JsonVal
  | str (s : String) : JsonVal
  | arr (xs : List JsonVal) : JsonVal
  | obj (fields : List (String × JsonVal)) : JsonVal
deriving Repr

/-! Association lists with Python `dict` semantics.

`lookupKey` is `d[k]` / `k in d`, `setKey` is `d[k] = v` (update in place,
new keys appended at the end, as CPython preserves insertion order),
`removeKey` is `del d[k]` (keys are unique in a dict, so removing the first
occurrence is removal of the occurrence). -/

def lookupKey {β : Type} (k : String) : List (String × β) → Option β
  | [] => none
  | (k', v) :: rest => if k' = k then some v else lookupKey k rest

def setKey {β : Type} (k : String) (v : β) : List (String × β) → List (String × β)
  | [] => [(k, v)]
  | (k', v') :: rest => if k' = k then (k, v) :: rest else (k', v') :: setKey k v rest

def removeKey {β : Type} (k : String) : List (String × β) → List (String × β)
  | [] => []
  | (k', v') :: rest => if k' = k then rest else (k', v') :: removeKey k rest

/-- The key list of an association list. -/
def keysOf {β : Type} (l : List (String × β)) : List String := l.map Prod.fst

theorem lookupKey_eq_none_iff {β : Type} (k : String) (l : List (String × β)) :
    lookupKey k l = none ↔ k ∉ keysOf l := by
  induction l with
  | nil => simp [lookupKey, keysOf]
  | cons p rest ih =>
    obtain ⟨k', v⟩ := p
    by_cases h : k' = k
    · subst h
      simp [lookupKey, keysOf]
    · simp [lookupKey, keysOf, h, ih, Ne.symm h]

theorem lookupKey_isSome_iff {β : Type} (k : String) (l : List (String × β)) :
    (lookupKey k l).isSome ↔ k ∈ keysOf l := by
  rw [Option.isSome_iff_ne_none, Ne, lookupKey_eq_none_iff]
  exact not_not

theorem lookupKey_setKey_self {β : Type} (k : String) (v : β) (l : List (String × β)) :
    lookupKey k (setKey k v l) = some v := by
  induction l with
  | nil => simp [setKey, lookupKey]
  | cons p rest ih =>
    obtain ⟨k', v'⟩ := p
    by_cases h : k' = k
    · simp [setKey, h, lookupKey]
    · simp [setKey, h, lookupKey, ih]

theorem keysOf_setKey {β : Type} (k : String) (v : β) (l : List (String × β)) :
    keysOf (setKey k v l) = if k ∈ keysOf l then keysOf l else keysOf l ++ [k] := by
  induction l with
  | nil => simp [setKey, keysOf]
  | cons p rest ih =>
    obtain ⟨k', v'⟩ := p
    by_cases h : k' = k
    · subst h
      simp [setKey, keysOf]
    · simp only [setKey, if_neg h, keysOf, List.map_cons] at ih ⊢
      rw [ih]
      by_cases hm : k ∈ List.map Prod.fst rest
      · simp [hm, Ne.symm h]
      · simp [hm, Ne.symm h]

theorem keysOf_removeKey {β : Type} (k : String) (l : List (String × β)) :
    keysOf (removeKey k l) = (keysOf l).erase k := by
  induction l with
  | nil => simp [removeKey, keysOf]
  | cons p rest ih =>
    obtain ⟨k', v'⟩ := p
    by_cases h : k' = k
    · subst h
      simp [removeKey, keysOf, List.erase_cons_head]
    · simp only [removeKey, if_neg h, keysOf, List.map_cons] at ih ⊢
      rw [ih, List.erase_cons]
      simp [h]

theorem lookupKey_removeKey_self {β : Type} (k : String) (l : List (String × β))
    (hnd : (keysOf l).Nodup) : lookupKey k (removeKey k l) = none := by
  rw [lookupKey_eq_none_iff, keysOf_removeKey]
  exact hnd.not_mem_erase

theorem lookupKey_mem_snd {β : Type} (k : String) (v : β) (l : List (String × β)) :
    lookupKey k l = some v → v ∈ l.map Prod.snd := by
  induction l with
  | nil => simp [lookupKey]
  | cons p rest ih =>
    obtain ⟨k', v'⟩ := p
    by_cases h : k' = k
    · simp only [lookupKey, if_pos h, Option.some.injEq, List.map_cons, List.mem_cons]
      intro hv
      exact Or.inl hv.symm
    · simp only [lookupKey, if_neg h, List.map_cons, List.mem_cons]
      intro hv
      exact Or.inr (ih hv)

/-! Protocol layer: `protocol/schemas.py` and `protocol/handlers.py`. -/

/-- JSON-RPC request ids: `id: Union[str, int]` in `MCPRequest`. -/
inductive RequestId where
  | str (s : String) : RequestId
  | num (n : Int) : RequestId
deriving Repr, DecidableEq

def RequestId.toJson : RequestId → JsonVal
  | .str s => .str s
  | .num n => .num n

/-- Model of `MCPRequest`: `id`, `method`, optional `params` (a JSON object). -/
structure MCPRequest where
  id : RequestId
  method : String
  params : Option (List (String × JsonVal))

/-- Model of `MCPError.to_dict()`: code and message plus `data` only when the
`data` dict is truthy (non-empty). -/
structure ErrorDict where
  code : Int
  message : String
  data : List (String × JsonVal) := []

def ErrorDict.toJson (e : ErrorDict) : JsonVal :=
  .obj ([("code", .num e.code), ("message", .str e.message)] ++
    (if e.data.isEmpty then [] else [("data", .obj e.data)]))

/-- Model of `MCPResponse`: `id` plus optional `result` and `error` payloads. -/
structure MCPResponse where
  id : RequestId
  result : Option JsonVal := none
  error : Option ErrorDict := none

/-- Serialization `MCPResponse.dict()`: the base pydantic dict holds `jsonrpc`, `id`,
`result`, `error`; if `error` is not `None` the `result` field is popped,
otherwise the `error` field is popped (a `None` result would then remain
present as JSON null — the override removes only the field not in use). -/
def MCPResponse.dictFields (r : MCPResponse) : List (String × JsonVal) :=
  let base := [("jsonrpc", JsonVal.str "2.0"), ("id", r.id.toJson)]
  match r.error with
  | some e => base ++ [("error", e.toJson)]
  | none =>
      base ++ [("result", match r.result with
                          | some v => v
                          | none => JsonVal.null)]

/-- Models Python `str(x)`.  The handler distinguishes only whether the value
is already a string (`str(result) if not isinstance(result, str) else result`);
the rendering of non-string values is irrelevant to every claim and kept
schematic. -/
def pyStr : JsonVal → String
  | .str s => s
  | .null => "None"
  | .bool true => "True"
  | .bool false => "False"
  | .num n => toString n
  | .arr _ => "<list>"
  | .obj _ => "<dict>"

/-- What a registered tool executor does with the given arguments
(`await executor(arguments)` in `_handle_call_tool`), by the cases the
handler distinguishes: a `ToolResult` instance, a plain dict, any other
value, or a raised exception. -/
inductive ExecResult where
  | toolResult (content : List JsonVal) (isError : Bool) : ExecResult
  | rawDict (fields : List (String × JsonVal)) : ExecResult
  | other (value : JsonVal) : ExecResult
  | raises (msg : String) : ExecResult

/-- Tool definition (`name`, `description`, `inputSchema`). -/
structure Tool where
  name : String
  description : String
  inputSchema : JsonVal

def Tool.toJson (t : Tool) : JsonVal :=
  .obj [("name", .str t.name), ("description", .str t.description),
        ("inputSchema", t.inputSchema)]

/-- State of `MCPHandler`: the `_initialized` flag, the `_tools` registry and
the `_tool_executors` registry (both dicts keyed by tool name). -/
structure MCPHandler where
  initialized : Bool := false
  tools : List (String × Tool) := []
  toolExecutors : List (String × (List (String × JsonVal) → ExecResult)) := []

/-- A `{"type": "text", "text": s}` content part. -/
def textContent (s : String) : JsonVal :=
  .obj [("type", .str "text"), ("text", .str s)]

/-- Construction `MCPResponse(id=..., error=e.to_dict())`. -/
def errorResponse (id : RequestId) (e : ErrorDict) : MCPResponse :=
  { id := id, error := some e }

/-- Result payload of `MCPInitializeResponse`. -/
def initializeResult (protocolVersion : String) : JsonVal :=
  .obj [("protocolVersion", .str protocolVersion),
        ("serverInfo", .obj [("name", .str "veris-memory-mcp-server"),
                             ("version", .str "0.1.0")]),
        ("capabilities", .obj [("tools", .obj []), ("resources", .obj []),
                               ("prompts", .obj [])])]

/-- Result payload of `MCPCallToolResponse`: content plus isError flag. -/
def callToolResult (content : List JsonVal) (isError : JsonVal) : JsonVal :=
  .obj [("content", .arr content), ("isError", isError)]

/-- Property `MCPInitializeRequest.protocol_version`:
`params.get("protocolVersion", "2025-06-18")` passed through `str(...)`. -/
def protocolVersionOf (params : List (String × JsonVal)) : String :=
  match lookupKey "protocolVersion" params with
  | some (.str s) => s
  | some v => pyStr v
  | none => "2025-06-18"

/-- Property `MCPCallToolRequest.tool_name`: `params.get("name", "")`, then
`str(name) if name is not None else ""`. -/
def toolNameOf (params : List (String × JsonVal)) : String :=
  match lookupKey "name" params with
  | some .null => ""
  | some (.str s) => s
  | some v => pyStr v
  | none => ""

/-- Property `MCPCallToolRequest.tool_arguments`: `params.get("arguments", {})`,
kept only when it is a dict. -/
def toolArgsOf (params : List (String × JsonVal)) : List (String × JsonVal) :=
  match lookupKey "arguments" params with
  | some (.obj fields) => fields
  | _ => []

/-- Formatting of an executor outcome in `_handle_call_tool`:
`ToolResult` instances are converted via `to_dict()`; dicts already holding
`"content"` are passed through (`isError` read with default `False`);
any other value is wrapped as a text part; a raised exception becomes an
error tool-result with text `"Tool execution failed: ..."`. -/
def formatExecResult (id : RequestId) : ExecResult → MCPResponse
  | .toolResult content isError =>
      { id := id, result := some (callToolResult content (.bool isError)) }
  | .rawDict fields =>
      match lookupKey "content" fields with
      | some c =>
          { id := id,
            result := some (.obj [("content", c),
              ("isError", (lookupKey "isError" fields).getD (.bool false))]) }
      | none =>
          { id := id,
            result := some (callToolResult [textContent (pyStr (.obj fields))]
              (.bool false)) }
  | .other v =>
      { id := id, result := some (callToolResult [textContent (pyStr v)] (.bool false)) }
  | .raises msg =>
      { id := id,
        result := some (callToolResult [textContent ("Tool execution failed: " ++ msg)]
          (.bool true)) }

/-- Tool dispatch inside `_handle_call_tool`: an unregistered tool name
raises `MCPError(..., code=-32601)`; otherwise the executor runs and its
outcome is formatted. -/
def MCPHandler.dispatchTool (h : MCPHandler) (id : RequestId)
    (params : List (String × JsonVal)) : MCPResponse :=
  match lookupKey (toolNameOf params) h.toolExecutors with
  | none =>
      errorResponse id { code := -32601, message := "Unknown tool: " ++ toolNameOf params }
  | some executor => formatExecResult id (executor (toolArgsOf params))

/-- Routing in `MCPHandler.handle_request`.  `initialize` validates
that `params` is a dict (pydantic requires it) and sets `_initialized`;
`tools/list` and `tools/call` first raise `-32002` when not initialized;
any other method raises `MCPMethodNotFoundError` (`-32601`).  Raised
`MCPError`s become error responses with the request id; a `tools/call`
request whose `params` is `None` hits an `AttributeError` in the
`tool_name` property, caught by the generic handler as `-32603`. -/
def MCPHandler.handleRequest (h : MCPHandler) (req : MCPRequest) :
    MCPHandler × MCPResponse :=
  if req.method = "initialize" then
    match req.params with
    | none =>
        (h, errorResponse req.id
          { code := -32602, message := "Invalid initialize request" })
    | some params =>
        ({ h with initialized := true },
          { id := req.id, result := some (initializeResult (protocolVersionOf params)) })
  else if req.method = "tools/list" then
    if h.initialized = false then
      (h, errorResponse req.id { code := -32002, message := "Session not initialized" })
    else
      (h, { id := req.id,
            result := some (.obj [("tools", .arr ((h.tools.map Prod.snd).map Tool.toJson))]) })
  else if req.method = "tools/call" then
    if h.initialized = false then
      (h, errorResponse req.id { code := -32002, message := "Session not initialized" })
    else
      match req.params with
      | none =>
          (h, errorResponse req.id
            { code := -32603, message := "Internal error",
              data := [("details", .str "'NoneType' object has no attribute 'get'")] })
      | some params => (h, h.dispatchTool req.id params)
  else
    (h, errorResponse req.id
      { code := -32601, message := "Method not found: " ++ req.method })

/-- The error code carried by a response, when it is an error response. -/
def MCPResponse.errorCode (r : MCPResponse) : Option Int :=
  r.error.map ErrorDict.code

/-- Well-formedness of the serialized form of a response: exactly one of the
fields `result` and `error` appears (with a non-null value); the other one
is absent from the dictionary, not present as null. -/
def responseExclusive (r : MCPResponse) : Prop :=
  (∃ v, lookupKey "result" r.dictFields = some v ∧ v ≠ JsonVal.null ∧
    lookupKey "error" r.dictFields = none) ∨
  (∃ v, lookupKey "error" r.dictFields = some v ∧ v ≠ JsonVal.null ∧
    lookupKey "result" r.dictFields = none)

theorem responseExclusive_of_error (i : RequestId) (e : ErrorDict) (o : Option JsonVal) :
    responseExclusive { id := i, result := o, error := some e } := by
  refine Or.inr ⟨e.toJson, ?_, ?_, ?_⟩
  · rfl
  · cases he : e.data.isEmpty <;> simp [ErrorDict.toJson, he]
  · rfl

theorem responseExclusive_of_result (i : RequestId) (v : JsonVal) (hv : v ≠ JsonVal.null) :
    responseExclusive { id := i, result := some v } := by
  exact Or.inl ⟨v, rfl, hv, rfl⟩

theorem formatExecResult_exclusive (i : RequestId) (er : ExecResult) :
    (formatExecResult i er).id = i ∧ responseExclusive (formatExecResult i er) := by
  cases er with
  | toolResult content isError =>
      exact ⟨rfl, responseExclusive_of_result i _ (by simp [callToolResult])⟩
  | rawDict fields =>
      cases hc : lookupKey "content" fields with
      | none =>
          refine ⟨?_, ?_⟩ <;> simp only [formatExecResult, hc]
          · exact responseExclusive_of_result i _ (by simp [callToolResult])
      | some c =>
          refine ⟨?_, ?_⟩ <;> simp only [formatExecResult, hc]
          · exact responseExclusive_of_result i _ (by simp)
  | other v =>
      exact ⟨rfl, responseExclusive_of_result i _ (by simp [callToolResult])⟩
  | raises msg =>
      exact ⟨rfl, responseExclusive_of_result i _ (by simp [callToolResult])⟩

theorem dispatchTool_wellformed (h : MCPHandler) (id : RequestId)
    (params : List (String × JsonVal)) :
    (h.dispatchTool id params).id = id ∧ responseExclusive (h.dispatchTool id params) := by
  unfold MCPHandler.dispatchTool
  cases hx : lookupKey (toolNameOf params) h.toolExecutors with
  | none =>
      exact ⟨rfl, responseExclusive_of_error id
        { code := -32601, message := "Unknown tool: " ++ toolNameOf params } none⟩
  | some executor =>
      exact formatExecResult_exclusive id (executor (toolArgsOf params))

/-- C1: for every request the handler processes, the emitted response
carries the same id as the request, and its serialized dictionary form
contains exactly one of the fields `result` and `error` (the absent one is
omitted, never present as null). -/
theorem handle_request_echoes_id_and_result_xor_error
    (h : MCPHandler) (req : MCPRequest) :
    ((h.handleRequest req).2).id = req.id ∧
    responseExclusive ((h.handleRequest req).2) := by
  unfold MCPHandler.handleRequest
  by_cases h1 : req.method = "initialize"
  · simp only [if_pos h1]
    cases hp : req.params with
    | none => exact ⟨rfl, responseExclusive_of_error req.id _ none⟩
    | some params =>
        exact ⟨rfl, responseExclusive_of_result req.id _ (by simp [initializeResult])⟩
  · simp only [if_neg h1]
    by_cases h2 : req.method = "tools/list"
    · simp only [if_pos h2]
      cases hi : h.initialized with
      | false => exact ⟨rfl, responseExclusive_of_error req.id _ none⟩
      | true =>
          rw [if_neg (by simp)]
          exact ⟨rfl, responseExclusive_of_result req.id _ (by simp)⟩
    · simp only [if_neg h2]
      by_cases h3 : req.method = "tools/call"
      · simp only [if_pos h3]
        cases hi : h.initialized with
        | false => exact ⟨rfl, responseExclusive_of_error req.id _ none⟩
        | true =>
            rw [if_neg (by simp)]
            cases hp : req.params with
            | none => exact ⟨rfl, responseExclusive_of_error req.id _ none⟩
            | some params => exact dispatchTool_wellformed h req.id params
      · simp only [if_neg h3]
        exact ⟨rfl, responseExclusive_of_error req.id _ none⟩

/-- A handler in its freshly constructed state: `_initialized = False`,
no tools registered. -/
def handlerNew : MCPHandler := {}

/-- C4 counterexample: before initialization, a request with the unknown
method `"ping"` is answered with error code `-32601` (method not found),
not `-32002` as the claim requires for every non-initialize method. -/
theorem preinit_unknown_method_not_32002 :
    ((handlerNew.handleRequest
      { id := .str "a", method := "ping", params := none }).2).errorCode =
      some (-32601) ∧ ((-32601 : Int) = -32002 → False) :=
  ⟨rfl, by decide⟩

/-- C4 (amended): before a successful initialize, requests with method
`tools/list` or `tools/call` are answered with error code `-32002`, while
requests with any other non-initialize method are answered with `-32601`
(method not found). -/
theorem preinit_rejection_codes (h : MCPHandler) (req : MCPRequest)
    (hinit : h.initialized = false) (hm : req.method ≠ "initialize") :
    ((h.handleRequest req).2).errorCode =
      some (if req.method = "tools/list" ∨ req.method = "tools/call"
            then -32002 else -32601) := by
  unfold MCPHandler.handleRequest
  by_cases h2 : req.method = "tools/list"
  · simp [hm, h2, hinit, errorResponse, MCPResponse.errorCode]
  · by_cases h3 : req.method = "tools/call"
    · simp [hm, h2, h3, hinit, errorResponse, MCPResponse.errorCode]
    · simp [hm, h2, h3, errorResponse, MCPResponse.errorCode]

/-- Witness for the amended C4 theorem at a concrete pre-init request. -/
theorem preinit_rejection_codes_witness :
    ((handlerNew.handleRequest
      { id := .str "a", method := "tools/list", params := none }).2).errorCode =
      some (-32002) :=
  preinit_rejection_codes handlerNew
    { id := .str "a", method := "tools/list", params := none } rfl (by decide)

/-! Backend client layer: `client/veris_client.py`. -/

/-- Outcome of one call of the function wrapped by `retry_with_backoff`:
either the call returns, or it raises an exception.  An exception stemming
from an upstream HTTP error carries its status code (the client raises
`Exception(f"HTTP {resp.status}: ...")` for any non-200 response and wraps
it in `VerisMemoryClientError`; the decorator sees only the exception). -/
inductive CallOutcome (α : Type) where
  | ok (v : α) : CallOutcome α
  | raise (httpStatus : Option Nat) : CallOutcome α
deriving Repr, DecidableEq

/-- Loop body of the `retry_with_backoff` wrapper: `remaining` counts the
attempts still allowed including the current one (the Python loop runs
`for attempt in range(max_retries)` and retries while
`attempt < max_retries - 1`); `outcomes n` is what the n-th call of the
wrapped function does (0-based).  Returns the final outcome and the number
of attempts made. -/
def retryLoop {α : Type} (outcomes : Nat → CallOutcome α) (attempt : Nat) :
    Nat → CallOutcome α × Nat
  | 0 => (.raise none, attempt)
  | remaining + 1 =>
    match outcomes attempt with
    | .ok v => (.ok v, attempt + 1)
    | .raise e =>
        if remaining = 0 then (.raise e, attempt + 1)
        else retryLoop outcomes (attempt + 1) remaining

/-- Decorator `retry_with_backoff(max_retries, ...)` applied to a function
whose successive call outcomes are `outcomes`.  Every exception is caught
by the bare `except Exception` clause and retried; there is no inspection
of the exception (in particular none of any HTTP status). -/
def retryWithBackoff {α : Type} (maxRetries : Nat) (outcomes : Nat → CallOutcome α) :
    CallOutcome α × Nat :=
  retryLoop outcomes 0 maxRetries

/-- Backoff delay of `retry_with_backoff`:
`min(base_delay * (2 ** attempt) + random.uniform(0, 1), max_delay)`, with
the jitter made explicit.  `store_context` is decorated with
`max_retries=3, base_delay=1.0` and the default `max_delay=10.0`. -/
def backoffDelay (baseDelay maxDelay : ℚ) (attempt : Nat) (jitter : ℚ) : ℚ :=
  min (baseDelay * 2 ^ attempt + jitter) maxDelay

/-- C5 counterexample: `store_context`, wrapped with
`retry_with_backoff(max_retries=3, base_delay=1.0)`, is retried after a
first attempt that raises an HTTP 400 client error: the second attempt runs
(and here succeeds), so two attempts are made where the claim allows one. -/
theorem store_context_retries_after_4xx :
    retryWithBackoff 3
      (fun n => if n = 0 then CallOutcome.raise (some 400) else CallOutcome.ok 0) =
      (CallOutcome.ok 0, 2) := rfl

/-- C5 (amended): the retry wrapper treats every exception alike — after a
first attempt that raises (a 4xx client error included), a second attempt
is always made, and at most `max_retries = 3` attempts are made in total. -/
theorem retry_applies_to_every_exception {α : Type}
    (outcomes : Nat → CallOutcome α) (e : Option Nat)
    (h0 : outcomes 0 = CallOutcome.raise e) :
    2 ≤ (retryWithBackoff 3 outcomes).2 ∧ (retryWithBackoff 3 outcomes).2 ≤ 3 := by
  have h3 : retryWithBackoff 3 outcomes = retryLoop outcomes 1 2 := by
    simp [retryWithBackoff, retryLoop, h0]
  rw [h3]
  cases h1 : outcomes 1 with
  | ok v => simp [retryLoop, h1]
  | raise e1 =>
      cases h2 : outcomes 2 with
      | ok v => simp [retryLoop, h1, h2]
      | raise e2 => simp [retryLoop, h1, h2]

/-- Witness for the amended C5 theorem on a concrete outcome trace. -/
theorem retry_applies_to_every_exception_witness :
    2 ≤ (retryWithBackoff 3
      (fun n => if n = 0 then CallOutcome.raise (some 404) else CallOutcome.ok 1)).2 ∧
    (retryWithBackoff 3
      (fun n => if n = 0 then CallOutcome.raise (some 404) else CallOutcome.ok 1)).2 ≤ 3 :=
  retry_applies_to_every_exception
    (fun n => if n = 0 then CallOutcome.raise (some 404) else CallOutcome.ok 1)
    (some 404) rfl

/-- Valid backend context types, from `_map_context_type`. -/
def validTypes : List String := ["design", "decision", "trace", "sprint", "log"]

/-- The explicit `type_mappings` table of `_map_context_type`. -/
def typeMappings : List (String × String) :=
  [("sprint_summary", "sprint"), ("sprint_plan", "sprint"),
   ("sprint_retrospective", "sprint"),
   ("technical_implementation", "design"), ("architecture", "design"),
   ("implementation", "design"), ("documentation", "design"),
   ("specification", "design"),
   ("future_work", "decision"), ("planning", "decision"),
   ("strategy", "decision"), ("proposal", "decision"),
   ("risk_assessment", "log"), ("meeting_notes", "log"), ("analysis", "log"),
   ("report", "log"), ("observation", "log"),
   ("knowledge", "trace"), ("context", "trace"), ("debug", "trace"),
   ("history", "trace")]

/-- Containment of `pat` as a contiguous run inside `hay`. -/
def hasInfix (pat : List Char) : List Char → Bool
  | [] => pat.isEmpty
  | c :: t => pat.isPrefixOf (c :: t) || hasInfix pat t

/-- Python `word in s` (substring containment). -/
def containsWord (s word : String) : Bool :=
  hasInfix word.toList s.toList

/-- Translation of `VerisMemoryClient._map_context_type`: exact match wins,
then the explicit table, then keyword rules over the lowercased name, with
default `"log"`. -/
def mapContextType (contextType : String) : String :=
  if contextType ∈ validTypes then contextType
  else
    match lookupKey contextType typeMappings with
    | some mapped => mapped
    | none =>
        let contextLower := contextType.toLower
        if containsWord contextLower "sprint" then "sprint"
        else if ["design", "implement", "architect", "spec"].any
            (fun w => containsWord contextLower w) then "design"
        else if ["decision", "plan", "strategy", "future"].any
            (fun w => containsWord contextLower w) then "decision"
        else if ["trace", "debug", "history", "context"].any
            (fun w => containsWord contextLower w) then "trace"
        else "log"

theorem typeMappings_snd_valid :
    ∀ v ∈ typeMappings.map Prod.snd, v ∈ validTypes := by decide

theorem mapContextType_mem_validTypes (t : String) :
    mapContextType t ∈ validTypes := by
  unfold mapContextType
  by_cases h : t ∈ validTypes
  · rw [if_pos h]
    exact h
  · rw [if_neg h]
    cases hl : lookupKey t typeMappings with
    | some mapped => exact typeMappings_snd_valid mapped (lookupKey_mem_snd t mapped _ hl)
    | none =>
        by_cases h1 : containsWord t.toLower "sprint" = true
        · simp [h1, validTypes]
        · rw [if_neg h1]
          by_cases h2 : (["design", "implement", "architect", "spec"].any
              (fun w => containsWord t.toLower w)) = true
          · simp [h2, validTypes]
          · rw [if_neg h2]
            by_cases h3 : (["decision", "plan", "strategy", "future"].any
                (fun w => containsWord t.toLower w)) = true
            · simp [h3, validTypes]
            · rw [if_neg h3]
              by_cases h4 : (["trace", "debug", "history", "context"].any
                  (fun w => containsWord t.toLower w)) = true
              · simp [h4, validTypes]
              · rw [if_neg h4]
                simp [validTypes]

theorem mapContextType_of_valid (t : String) (h : t ∈ validTypes) :
    mapContextType t = t := by
  unfold mapContextType
  rw [if_pos h]

/-- C9: the context-type mapping is idempotent:
`map(map(t)) == map(t)` for every input string `t`. -/
theorem mapContextType_idempotent (t : String) :
    mapContextType (mapContextType t) = mapContextType t :=
  mapContextType_of_valid (mapContextType t) (mapContextType_mem_validTypes t)

/-- Payload built by `VerisMemoryClient.store_context`:
`{"content": ..., "type": mapped, "metadata": metadata or {}}`, where the
original type is recorded under `metadata["original_type"]` whenever the
mapping changed it. -/
structure StorePayload where
  content : JsonVal
  type : String
  metadata : List (String × JsonVal)

def storeContextPayload (contextType : String) (content : JsonVal)
    (metadata : Option (List (String × JsonVal))) : StorePayload :=
  let mapped := mapContextType contextType
  let md0 := metadata.getD []
  let md := if mapped ≠ contextType
            then setKey "original_type" (.str contextType) md0
            else md0
  { content := content, type := mapped, metadata := md }

/-- C6: the stored type is always one of the five valid backend types, and
whenever the mapping changed the input type, the payload metadata records
the original type under `original_type`. -/
theorem store_context_maps_type_and_records_original
    (t : String) (content : JsonVal) (metadata : Option (List (String × JsonVal))) :
    (storeContextPayload t content metadata).type ∈ validTypes ∧
    (mapContextType t ≠ t →
      lookupKey "original_type" (storeContextPayload t content metadata).metadata =
        some (.str t)) := by
  constructor
  · exact mapContextType_mem_validTypes t
  · intro hne
    simp only [storeContextPayload, if_pos hne]
    exact lookupKey_setKey_self "original_type" (JsonVal.str t) (metadata.getD [])

/-- Witness for the C6 theorem at `t = "sprint_summary"` (a mapped type). -/
theorem store_context_maps_type_witness :
    (storeContextPayload "sprint_summary" JsonVal.null none).type ∈ validTypes ∧
    lookupKey "original_type"
      (storeContextPayload "sprint_summary" JsonVal.null none).metadata =
      some (.str "sprint_summary") :=
  ⟨(store_context_maps_type_and_records_original "sprint_summary" JsonVal.null none).1,
   (store_context_maps_type_and_records_original "sprint_summary" JsonVal.null none).2
     (by decide)⟩

/-! Cache layer: `build/lib/veris_memory_mcp_server/utils/cache.py`. -/

/-- Model of `CacheItem`: `(value, created_at, ttl_seconds)`.  Wall-clock
instants (`time.time()` floats) are modelled as rationals. -/
structure CacheItem where
  value : JsonVal
  createdAt : ℚ
  ttlSeconds : ℚ
deriving Repr

/-- Property `CacheItem.is_expired`: `time.time() - created_at > ttl_seconds`,
with the current instant passed explicitly. -/
def CacheItem.isExpired (it : CacheItem) (now : ℚ) : Bool :=
  decide (now - it.createdAt > it.ttlSeconds)

/-- State of `MemoryCache`: the `_cache` dict (association list with unique
keys) and the `_access_order` LRU list, plus the configuration fields. -/
structure MemoryCache where
  defaultTtlSeconds : ℚ
  maxSize : Nat
  cache : List (String × CacheItem)
  accessOrder : List String
deriving Repr

/-- Key derivation `MemoryCache._generate_key`: the key content is
`f"{operation}:{params_str}"`; the SHA-256 hashing and truncation to a
16-hex prefix is not modelled (it only renames keys, injectively up to hash
collisions, and no claim depends on the hash itself). -/
def generateKey (operation : String) (paramsStr : String) : String :=
  operation ++ ":" ++ paramsStr

/-- Method `MemoryCache.get`: a missing key is a miss; an expired item is
deleted from the dict and from the access order and reported as a miss; a
hit moves the key to the back of the access order. -/
def MemoryCache.get (c : MemoryCache) (key : String) (now : ℚ) :
    Option JsonVal × MemoryCache :=
  match lookupKey key c.cache with
  | none => (none, c)
  | some item =>
      if item.isExpired now then
        (none, { c with cache := removeKey key c.cache,
                        accessOrder := c.accessOrder.erase key })
      else
        (some item.value, { c with accessOrder := c.accessOrder.erase key ++ [key] })

/-- Method `MemoryCache._evict_lru`: pop the front of the access order and
delete that key from the dict if present (a no-op on an empty order). -/
def MemoryCache.evictLru (c : MemoryCache) : MemoryCache :=
  match c.accessOrder with
  | [] => c
  | lruKey :: rest =>
      { c with accessOrder := rest, cache := removeKey lruKey c.cache }

/-- TTL resolution in `MemoryCache.set`:
`ttl = ttl_seconds or self.default_ttl_seconds` — Python `or`, so a falsy
`0` also falls back to the default. -/
def MemoryCache.resolveTtl (c : MemoryCache) (ttlSeconds : Option ℚ) : ℚ :=
  match ttlSeconds with
  | some t => if t = 0 then c.defaultTtlSeconds else t
  | none => c.defaultTtlSeconds

/-- Tail of `MemoryCache.set` after the eviction check: store the item in
the dict and move the key to the back of the access order. -/
def MemoryCache.setStore (c : MemoryCache) (key : String) (item : CacheItem) :
    MemoryCache :=
  { c with cache := setKey key item c.cache,
           accessOrder := c.accessOrder.erase key ++ [key] }

/-- Method `MemoryCache.set`: when the dict is at capacity
(`len(self._cache) >= self.max_size`) and the key is new, one LRU eviction
happens first; then the item is stored and the key touched. -/
def MemoryCache.set (c : MemoryCache) (key : String) (value : JsonVal)
    (ttlSeconds : Option ℚ) (now : ℚ) : MemoryCache :=
  (if c.maxSize ≤ c.cache.length ∧ (lookupKey key c.cache).isNone = true
   then c.evictLru else c).setStore key ⟨value, now, c.resolveTtl ttlSeconds⟩

/-- Method `MemoryCache.invalidate`: removes the entry if present,
returning whether something was removed. -/
def MemoryCache.invalidate (c : MemoryCache) (key : String) :
    Bool × MemoryCache :=
  if (lookupKey key c.cache).isSome then
    (true, { c with cache := removeKey key c.cache,
                    accessOrder := c.accessOrder.erase key })
  else
    (false, c)

/-- Method `MemoryCache.clear`: empties both the dict and the access order. -/
def MemoryCache.clear (c : MemoryCache) : MemoryCache :=
  { c with cache := [], accessOrder := [] }

/-- Method `MemoryCache.cleanup_expired`: collect the keys of expired items
and delete each from the dict and the access order, returning the count. -/
def MemoryCache.cleanupExpired (c : MemoryCache) (now : ℚ) : Nat × MemoryCache :=
  let expiredKeys := keysOf (c.cache.filter (fun p => p.2.isExpired now))
  (expiredKeys.length,
   expiredKeys.foldl
     (fun acc k => { acc with cache := removeKey k acc.cache,
                              accessOrder := acc.accessOrder.erase k }) c)

/-- Hook `CachedVerisClient.invalidate_context_cache`: called after
mutations (store, delete).  Its loop over
`["retrieve_context", "search_context"]` only logs
"Context cache invalidation needed"; no cache entry is touched, so the
cache state is returned unchanged. -/
def invalidateContextCache (cache : MemoryCache) : MemoryCache :=
  cache

/-- Key-set agreement between the dict and the access-order list, as a
decidable bound in both directions. -/
def keysSubset (l1 l2 : List String) : Bool :=
  l1.all (fun k => decide (k ∈ l2))

/-- Well-formedness of a `MemoryCache` state: the dict has unique keys (it
models a Python dict), the access order has unique entries, and both hold
exactly the same keys. -/
def MemoryCache.WF (c : MemoryCache) : Prop :=
  (keysOf c.cache).Nodup ∧ c.accessOrder.Nodup ∧
  keysSubset (keysOf c.cache) c.accessOrder = true ∧
  keysSubset c.accessOrder (keysOf c.cache) = true

/-- The invariant of claim C10: well-formedness plus the capacity bound. -/
def MemoryCache.Inv (c : MemoryCache) : Prop :=
  c.WF ∧ c.cache.length ≤ c.maxSize

theorem keysSubset_iff (l1 l2 : List String) :
    keysSubset l1 l2 = true ↔ ∀ k ∈ l1, k ∈ l2 := by
  simp [keysSubset]

instance (c : MemoryCache) : Decidable c.WF := by
  unfold MemoryCache.WF
  infer_instance

instance (c : MemoryCache) : Decidable c.Inv := by
  unfold MemoryCache.Inv
  infer_instance

theorem length_keysOf {β : Type} (l : List (String × β)) :
    (keysOf l).length = l.length :=
  List.length_map l Prod.fst

theorem length_removeKey_le {β : Type} (k : String) (l : List (String × β)) :
    (removeKey k l).length ≤ l.length := by
  have h := congrArg List.length (keysOf_removeKey (β := β) k l)
  rw [length_keysOf] at h
  rw [h]
  exact le_trans (List.length_erase_le _ _) (le_of_eq (length_keysOf l))

theorem length_removeKey_of_mem {β : Type} (k : String) (l : List (String × β))
    (hk : k ∈ keysOf l) : (removeKey k l).length = l.length - 1 := by
  have h := congrArg List.length (keysOf_removeKey (β := β) k l)
  rw [length_keysOf] at h
  rw [h, List.length_erase_of_mem hk, length_keysOf]

theorem mem_keysOf_setKey {β : Type} (k k' : String) (v : β) (l : List (String × β)) :
    k' ∈ keysOf (setKey k v l) ↔ k' ∈ keysOf l ∨ k' = k := by
  rw [keysOf_setKey]
  by_cases h : k ∈ keysOf l
  · rw [if_pos h]
    constructor
    · exact Or.inl
    · rintro (hk | rfl)
      · exact hk
      · exact h
  · rw [if_neg h]
    simp

theorem nodup_keysOf_setKey {β : Type} (k : String) (v : β) (l : List (String × β))
    (h : (keysOf l).Nodup) : (keysOf (setKey k v l)).Nodup := by
  rw [keysOf_setKey]
  by_cases hm : k ∈ keysOf l
  · rwa [if_pos hm]
  · rw [if_neg hm]
    refine h.append (List.nodup_singleton k) ?_
    intro x hx hx'
    simp only [List.mem_singleton] at hx'
    subst hx'
    exact hm hx

theorem length_setKey {β : Type} (k : String) (v : β) (l : List (String × β)) :
    (setKey k v l).length = if k ∈ keysOf l then l.length else l.length + 1 := by
  have h := congrArg List.length (keysOf_setKey (β := β) k v l)
  rw [length_keysOf] at h
  rw [h]
  by_cases hm : k ∈ keysOf l
  · rw [if_pos hm, if_pos hm, length_keysOf]
  · rw [if_neg hm, if_neg hm, List.length_append, length_keysOf]
    rfl

/-- Key-set agreement between dict and access order, as a membership iff. -/
theorem MemoryCache.WF.mem_iff {c : MemoryCache} (h : c.WF) (k : String) :
    k ∈ keysOf c.cache ↔ k ∈ c.accessOrder := by
  obtain ⟨_, _, hs1, hs2⟩ := h
  rw [keysSubset_iff] at hs1 hs2
  exact ⟨fun hk => hs1 k hk, fun hk => hs2 k hk⟩

/-- Removing a key from both the dict and the access order (the shape shared
by expired-`get`, `invalidate` and each `cleanup_expired` step) preserves
the invariant. -/
theorem Inv_delete (c : MemoryCache) (k : String) (h : c.Inv) :
    MemoryCache.Inv { c with cache := removeKey k c.cache,
                             accessOrder := c.accessOrder.erase k } := by
  obtain ⟨⟨hnd1, hnd2, hs1, hs2⟩, hlen⟩ := h
  rw [keysSubset_iff] at hs1 hs2
  refine ⟨⟨?_, hnd2.erase k, ?_, ?_⟩, ?_⟩
  · rw [keysOf_removeKey]
    exact hnd1.erase k
  · rw [keysSubset_iff]
    intro x hx
    rw [keysOf_removeKey, hnd1.mem_erase_iff] at hx
    exact (hnd2.mem_erase_iff).mpr ⟨hx.1, hs1 x hx.2⟩
  · rw [keysSubset_iff]
    intro x hx
    rw [hnd2.mem_erase_iff] at hx
    rw [keysOf_removeKey]
    exact (hnd1.mem_erase_iff).mpr ⟨hx.1, hs2 x hx.2⟩
  · exact le_trans (length_removeKey_le k c.cache) hlen

theorem WF_setStore (c : MemoryCache) (key : String) (item : CacheItem)
    (hwf : c.WF) : (c.setStore key item).WF := by
  obtain ⟨hnd1, hnd2, hs1, hs2⟩ := hwf
  rw [keysSubset_iff] at hs1 hs2
  simp only [MemoryCache.setStore]
  refine ⟨nodup_keysOf_setKey key item c.cache hnd1, ?_, ?_, ?_⟩
  · refine (hnd2.erase key).append (List.nodup_singleton key) ?_
    intro x hx hx'
    simp only [List.mem_singleton] at hx'
    subst hx'
    exact hnd2.not_mem_erase hx
  · rw [keysSubset_iff]
    intro x hx
    rw [mem_keysOf_setKey] at hx
    rcases hx with hx | rfl
    · by_cases hxk : x = key
      · subst hxk
        simp
      · exact List.mem_append_left _ ((hnd2.mem_erase_iff).mpr ⟨hxk, hs1 x hx⟩)
    · simp
  · rw [keysSubset_iff]
    intro x hx
    rw [mem_keysOf_setKey]
    rcases List.mem_append.mp hx with hx | hx
    · exact Or.inl (hs2 x (List.mem_of_mem_erase hx))
    · simp only [List.mem_singleton] at hx
      exact Or.inr hx

theorem Inv_setStore (c : MemoryCache) (key : String) (item : CacheItem)
    (hwf : c.WF)
    (hb : (if key ∈ keysOf c.cache then c.cache.length else c.cache.length + 1)
      ≤ c.maxSize) : (c.setStore key item).Inv := by
  refine ⟨WF_setStore c key item hwf, ?_⟩
  show (setKey key item c.cache).length ≤ c.maxSize
  rw [length_setKey]
  by_cases hm : key ∈ keysOf c.cache
  · rw [if_pos hm]
    rw [if_pos hm] at hb
    exact hb
  · rw [if_neg hm]
    rw [if_neg hm] at hb
    exact hb

theorem evictLru_of_cons (c : MemoryCache) (lru : String) (rest : List String)
    (h : c.accessOrder = lru :: rest) :
    c.evictLru = { c with accessOrder := rest, cache := removeKey lru c.cache } := by
  unfold MemoryCache.evictLru
  rw [h]

theorem Inv_set (c : MemoryCache) (key : String) (value : JsonVal)
    (ttlSeconds : Option ℚ) (now : ℚ) (h : c.Inv) (hm : 1 ≤ c.maxSize) :
    (c.set key value ttlSeconds now).Inv := by
  unfold MemoryCache.set
  by_cases hc : c.maxSize ≤ c.cache.length ∧ (lookupKey key c.cache).isNone = true
  · rw [if_pos hc]
    have hkey : key ∉ keysOf c.cache := by
      rw [← lookupKey_eq_none_iff, ← Option.isNone_iff_eq_none]
      exact hc.2
    have hlenmax : c.cache.length = c.maxSize := le_antisymm h.2 hc.1
    have hord : c.accessOrder ≠ [] := by
      intro hnil
      have hpos : 0 < c.cache.length := lt_of_lt_of_le hm hc.1
      obtain ⟨p, hp⟩ := List.exists_mem_of_length_pos hpos
      have hpk : p.1 ∈ keysOf c.cache := List.mem_map_of_mem Prod.fst hp
      have := (h.1.mem_iff p.1).mp hpk
      rw [hnil] at this
      exact List.not_mem_nil p.1 this
    obtain ⟨lru, rest, horder⟩ := List.exists_cons_of_ne_nil hord
    rw [evictLru_of_cons c lru rest horder]
    have hlru : lru ∈ keysOf c.cache := by
      refine (h.1.mem_iff lru).mpr ?_
      rw [horder]
      exact List.mem_cons_self lru rest
    have herase : ({ c with accessOrder := rest, cache := removeKey lru c.cache }
        : MemoryCache) =
        { c with cache := removeKey lru c.cache, accessOrder := c.accessOrder.erase lru } := by
      rw [horder, List.erase_cons_head]
    rw [herase]
    have hdel := Inv_delete c lru h
    refine Inv_setStore _ key _ hdel.1 ?_
    have hkey' : key ∉ keysOf (removeKey lru c.cache) := by
      rw [keysOf_removeKey]
      intro hx
      exact hkey (List.mem_of_mem_erase hx)
    rw [if_neg hkey']
    show (removeKey lru c.cache).length + 1 ≤ c.maxSize
    rw [length_removeKey_of_mem lru c.cache hlru, hlenmax]
    omega
  · rw [if_neg hc]
    refine Inv_setStore c key _ h.1 ?_
    by_cases hmem : key ∈ keysOf c.cache
    · rw [if_pos hmem]
      exact h.2
    · rw [if_neg hmem]
      have hnone : (lookupKey key c.cache).isNone = true := by
        rw [Option.isNone_iff_eq_none, lookupKey_eq_none_iff]
        exact hmem
      have hlt : ¬ c.maxSize ≤ c.cache.length := fun hle => hc ⟨hle, hnone⟩
      omega

theorem get_none (c : MemoryCache) (key : String) (now : ℚ)
    (hl : lookupKey key c.cache = none) : c.get key now = (none, c) := by
  unfold MemoryCache.get
  rw [hl]

theorem get_some (c : MemoryCache) (key : String) (now : ℚ) (item : CacheItem)
    (hl : lookupKey key c.cache = some item) :
    c.get key now =
      if item.isExpired now
      then (none, { c with cache := removeKey key c.cache,
                           accessOrder := c.accessOrder.erase key })
      else (some item.value,
            { c with accessOrder := c.accessOrder.erase key ++ [key] }) := by
  unfold MemoryCache.get
  rw [hl]

theorem Inv_touch (c : MemoryCache) (key : String) (h : c.Inv)
    (hkey : key ∈ keysOf c.cache) :
    MemoryCache.Inv { c with accessOrder := c.accessOrder.erase key ++ [key] } := by
  obtain ⟨⟨hnd1, hnd2, hs1, hs2⟩, hlen⟩ := h
  rw [keysSubset_iff] at hs1 hs2
  refine ⟨⟨hnd1, ?_, ?_, ?_⟩, hlen⟩
  · refine (hnd2.erase key).append (List.nodup_singleton key) ?_
    intro x hx hx'
    simp only [List.mem_singleton] at hx'
    subst hx'
    exact hnd2.not_mem_erase hx
  · rw [keysSubset_iff]
    intro x hx
    by_cases hxk : x = key
    · subst hxk
      simp
    · exact List.mem_append_left _ ((hnd2.mem_erase_iff).mpr ⟨hxk, hs1 x hx⟩)
  · rw [keysSubset_iff]
    intro x hx
    rcases List.mem_append.mp hx with hx | hx
    · exact hs2 x (List.mem_of_mem_erase hx)
    · simp only [List.mem_singleton] at hx
      subst hx
      exact hkey

theorem Inv_get (c : MemoryCache) (key : String) (now : ℚ) (h : c.Inv) :
    ((c.get key now).2).Inv := by
  cases hl : lookupKey key c.cache with
  | none =>
      rw [get_none c key now hl]
      exact h
  | some item =>
      rw [get_some c key now item hl]
      by_cases he : item.isExpired now = true
      · rw [if_pos he]
        exact Inv_delete c key h
      · rw [if_neg he]
        refine Inv_touch c key h ?_
        rw [← lookupKey_isSome_iff, hl]
        rfl

theorem Inv_invalidate (c : MemoryCache) (key : String) (h : c.Inv) :
    ((c.invalidate key).2).Inv := by
  unfold MemoryCache.invalidate
  by_cases hs : (lookupKey key c.cache).isSome = true
  · rw [if_pos hs]
    exact Inv_delete c key h
  · rw [if_neg hs]
    exact h

theorem Inv_clear (c : MemoryCache) : c.clear.Inv := by
  refine ⟨⟨List.nodup_nil, List.nodup_nil, rfl, rfl⟩, Nat.zero_le _⟩

theorem Inv_foldl_delete : ∀ (ks : List String) (c : MemoryCache), c.Inv →
    (ks.foldl (fun acc k => { acc with cache := removeKey k acc.cache,
                                       accessOrder := acc.accessOrder.erase k }) c).Inv
  | [], _, h => h
  | k :: ks, c, h => Inv_foldl_delete ks _ (Inv_delete c k h)

theorem Inv_cleanupExpired (c : MemoryCache) (now : ℚ) (h : c.Inv) :
    ((c.cleanupExpired now).2).Inv := by
  unfold MemoryCache.cleanupExpired
  exact Inv_foldl_delete _ c h

/-- C7: an entry whose age exceeds its TTL (`now - created_at > ttl_seconds`)
makes the next `get` for its key a miss (`None`) and removes the entry from
both the item store and the LRU access-order list.  Well-formedness of the
state (the dict and the order hold the same keys, without duplicates) is
the representation invariant every reachable `MemoryCache` satisfies. -/
theorem cache_get_expired_misses_and_removes
    (c : MemoryCache) (key : String) (item : CacheItem) (now : ℚ)
    (hwf : c.WF) (hl : lookupKey key c.cache = some item)
    (he : item.isExpired now = true) :
    (c.get key now).1 = none ∧
    lookupKey key ((c.get key now).2).cache = none ∧
    key ∉ ((c.get key now).2).accessOrder := by
  obtain ⟨hnd1, hnd2, _, _⟩ := hwf
  rw [get_some c key now item hl, if_pos he]
  refine ⟨rfl, ?_, ?_⟩
  · exact lookupKey_removeKey_self key c.cache hnd1
  · exact hnd2.not_mem_erase

/-- A concrete cache holding one entry that is expired at instant 6
(created at 0 with a TTL of 5 seconds). -/
def cacheWithExpired : MemoryCache :=
  { defaultTtlSeconds := 300, maxSize := 10,
    cache := [("k", { value := JsonVal.null, createdAt := 0, ttlSeconds := 5 })],
    accessOrder := ["k"] }

/-- Witness for the C7 theorem on `cacheWithExpired` at instant 6. -/
theorem cache_get_expired_misses_and_removes_witness :
    (cacheWithExpired.get "k" 6).1 = none ∧
    lookupKey "k" ((cacheWithExpired.get "k" 6).2).cache = none ∧
    "k" ∉ ((cacheWithExpired.get "k" 6).2).accessOrder :=
  cache_get_expired_misses_and_removes cacheWithExpired "k"
    { value := JsonVal.null, createdAt := 0, ttlSeconds := 5 } 6
    (by decide) rfl
    (by simp only [CacheItem.isExpired, decide_eq_true_eq]; norm_num)

/-- A concrete cache holding one fresh `retrieve_context` entry. -/
def cacheWithRetrieveEntry : MemoryCache :=
  { defaultTtlSeconds := 300, maxSize := 1000,
    cache := [(generateKey "retrieve_context" "q",
               { value := JsonVal.str "r", createdAt := 0, ttlSeconds := 300 })],
    accessOrder := [generateKey "retrieve_context" "q"] }

/-- C8: evaluation of `invalidate_context_cache` at the failing input.  The
hook that is supposed to drop all `retrieve_context` and `search_context`
entries after a mutation leaves the cached entry in place: its loop only
logs the intent and never removes anything. -/
theorem invalidate_context_cache_keeps_entries :
    lookupKey (generateKey "retrieve_context" "q")
      (invalidateContextCache cacheWithRetrieveEntry).cache =
      some { value := JsonVal.str "r", createdAt := 0, ttlSeconds := 300 } ∧
    (invalidateContextCache cacheWithRetrieveEntry).cache.length = 1 := by
  exact ⟨rfl, rfl⟩

/-- C10 (amended): every operation of `MemoryCache` — `get`, `set`,
`invalidate`, `clear`, `cleanup_expired` — preserves the invariant that the
item store and the LRU access-order list hold exactly the same keys and
that the number of stored items does not exceed `max_size`, provided
`max_size ≥ 1` (with `max_size = 0` a `set` on an empty cache stores one
item and exceeds the bound, because `_evict_lru` on an empty order evicts
nothing). -/
theorem memoryCache_operations_preserve_invariant
    (c : MemoryCache) (key : String) (value : JsonVal)
    (ttlSeconds : Option ℚ) (now : ℚ) (h : c.Inv) (hm : 1 ≤ c.maxSize) :
    ((c.get key now).2).Inv ∧ (c.set key value ttlSeconds now).Inv ∧
    ((c.invalidate key).2).Inv ∧ c.clear.Inv ∧
    ((c.cleanupExpired now).2).Inv :=
  ⟨Inv_get c key now h, Inv_set c key value ttlSeconds now h hm,
   Inv_invalidate c key h, Inv_clear c, Inv_cleanupExpired c now h⟩

/-- A well-formed cache with capacity 1 holding one entry. -/
def cacheCapOne : MemoryCache :=
  { defaultTtlSeconds := 300, maxSize := 1,
    cache := [("a", { value := JsonVal.null, createdAt := 0, ttlSeconds := 5 })],
    accessOrder := ["a"] }

/-- Witness for the amended C10 theorem on a concrete full cache of
capacity 1, with a `set` of a fresh key that forces an LRU eviction. -/
theorem memoryCache_operations_preserve_invariant_witness :
    ((cacheCapOne.get "k" 6).2).Inv ∧ (cacheCapOne.set "k" JsonVal.null none 6).Inv ∧
    ((cacheCapOne.invalidate "k").2).Inv ∧ cacheCapOne.clear.Inv ∧
    ((cacheCapOne.cleanupExpired 6).2).Inv :=
  memoryCache_operations_preserve_invariant cacheCapOne "k" JsonVal.null none 6
    (by decide) (by decide)

/-- An empty cache with `max_size = 0`. -/
def cacheCapZero : MemoryCache :=
  { defaultTtlSeconds := 300, maxSize := 0, cache := [], accessOrder := [] }

/-- C10 counterexample: with `max_size = 0` the invariant holds before a
`set` and is violated after it — the item count (1) exceeds `max_size` (0),
so the claim as stated (for every `MemoryCache`) fails. -/
theorem memoryCache_size_bound_fails_at_capacity_zero :
    cacheCapZero.Inv ∧ ¬ (cacheCapZero.set "k" JsonVal.null none 0).Inv := by
  constructor
  · decide
  · intro h
    have := h.2
    revert this
    decide

/-! Webhook layer: `webhooks/delivery.py` and `webhooks/manager.py`. -/

/-- Status enum `DeliveryStatus`. -/
inductive DeliveryStatus where
  | pending : DeliveryStatus
  | success : DeliveryStatus
  | failed : DeliveryStatus
  | retrying : DeliveryStatus
  | abandoned : DeliveryStatus
deriving Repr, DecidableEq

/-- What one HTTP attempt of a webhook delivery observes: a response with a
status code, a timeout, or some other raised exception. -/
inductive AttemptOutcome where
  | http (status : Nat) : AttemptOutcome
  | timeout : AttemptOutcome
  | exc (msg : String) : AttemptOutcome
deriving Repr, DecidableEq

/-- Record of a single delivery attempt (`DeliveryAttempt`), restricted to
the fields the claims mention. -/
structure DeliveryAttempt where
  attemptNumber : Nat
  statusCode : Option Nat := none
  error : Option String := none
deriving Repr, DecidableEq

/-- Result of `deliver_event` (`DeliveryResult`), restricted to the final
status and the attempt list. -/
structure DeliveryResult where
  finalStatus : DeliveryStatus
  attempts : List DeliveryAttempt
deriving Repr, DecidableEq

/-- Loop of `WebhookDelivery._attempt_delivery_with_retries`, driven by the
outcome `outcomes n` of the n-th HTTP attempt (1-based).  The Python loop is
`for attempt_num in range(1, max_retries + 2)`; `fuel` is the number of
iterations left.  A 2xx response returns `True`; a 4xx response sets the
delivery status to `ABANDONED` and returns `False`; any other status,
timeout or exception falls through, and when `attempt_num <= max_retries`
the status becomes `RETRYING` and the loop continues; exhaustion returns
`False`.  Returns `(success, attempts, final_status as left by the loop)`. -/
def attemptDeliveryLoop (outcomes : Nat → AttemptOutcome) (maxRetries : Nat)
    (attemptNum : Nat) (acc : List DeliveryAttempt) (status : DeliveryStatus) :
    Nat → Bool × List DeliveryAttempt × DeliveryStatus
  | 0 => (false, acc, status)
  | fuel + 1 =>
    match outcomes attemptNum with
    | .http s =>
        let acc := acc ++ [{ attemptNumber := attemptNum, statusCode := some s }]
        if 200 ≤ s ∧ s < 300 then (true, acc, status)
        else if 400 ≤ s ∧ s < 500 then (false, acc, .abandoned)
        else if attemptNum ≤ maxRetries then
          attemptDeliveryLoop outcomes maxRetries (attemptNum + 1) acc .retrying fuel
        else (false, acc, status)
    | .timeout =>
        let acc := acc ++ [{ attemptNumber := attemptNum, error := some "Request timeout" }]
        if attemptNum ≤ maxRetries then
          attemptDeliveryLoop outcomes maxRetries (attemptNum + 1) acc .retrying fuel
        else (false, acc, status)
    | .exc msg =>
        let acc := acc ++ [{ attemptNumber := attemptNum, error := some msg }]
        if attemptNum ≤ maxRetries then
          attemptDeliveryLoop outcomes maxRetries (attemptNum + 1) acc .retrying fuel
        else (false, acc, status)

/-- Method `WebhookDelivery.deliver_event`: the delivery result starts as
`PENDING`, the retry loop runs (mutating `final_status` along the way), and
then `deliver_event` unconditionally assigns
`final_status = SUCCESS if success else FAILED`, overwriting whatever the
loop left there — including `ABANDONED`. -/
def deliverEvent (maxRetries : Nat) (outcomes : Nat → AttemptOutcome) :
    DeliveryResult :=
  let loopOut := attemptDeliveryLoop outcomes maxRetries 1 [] .pending (maxRetries + 1)
  let res : DeliveryResult := { finalStatus := loopOut.2.2, attempts := loopOut.2.1 }
  { res with finalStatus := if loopOut.1 then .success else .failed }

/-- C2: evaluation at the failing input.  With the default `max_retries = 3`
and a single HTTP attempt answered 404, no further attempt is made (the
4xx branch returns immediately), but the resulting `final_status` is
`"failed"`, not `"abandoned"`: the `ABANDONED` status set inside
`_attempt_delivery_with_retries` is overwritten by `deliver_event`.  A 2xx
trace does end as `"success"`, and an all-5xx trace exhausts its 4 attempts
and ends as `"failed"`. -/
theorem deliver_event_4xx_reports_failed_not_abandoned :
    (deliverEvent 3 (fun _ => .http 404)).finalStatus = .failed ∧
    (deliverEvent 3 (fun _ => .http 404)).attempts =
      [{ attemptNumber := 1, statusCode := some 404 }] ∧
    (deliverEvent 3 (fun _ => .http 200)).finalStatus = .success ∧
    (deliverEvent 3 (fun _ => .http 500)).finalStatus = .failed ∧
    (deliverEvent 3 (fun _ => .http 500)).attempts.length = 4 := by
  refine ⟨rfl, rfl, rfl, rfl, rfl⟩

/-- Outcome of `WebhookManager.emit_event` for the caller. -/
inductive EmitOutcome where
  | droppedNotRunning : EmitOutcome
  | enqueued (queue : List Nat) : EmitOutcome
  | blockedAwaitingSpace : EmitOutcome
deriving Repr, DecidableEq

/-- Method `WebhookManager.emit_event` (events are represented by ids):
when the manager is not running the event is dropped with a warning;
otherwise `await self._event_queue.put(event)` runs.  Per the asyncio
library semantics of a bounded `asyncio.Queue`, `put` enqueues when a slot
is free and otherwise suspends the caller until one frees up — it never
raises `QueueFull` (only `put_nowait` does), so the
`except asyncio.QueueFull` branch that would drop the event is
unreachable. -/
def emitEvent (isRunning : Bool) (bufferSize : Nat) (queue : List Nat)
    (event : Nat) : EmitOutcome :=
  if isRunning = false then .droppedNotRunning
  else if queue.length < bufferSize then .enqueued (queue ++ [event])
  else .blockedAwaitingSpace

/-- C3: evaluation at the failing input.  With the manager running and the
event queue at its default capacity of 10000, `emit_event` suspends the
caller inside `queue.put` instead of dropping the event: the drop-on-full
branch is dead code and the request path blocks until space frees up. -/
theorem emit_event_blocks_when_queue_full :
    emitEvent true 10000 (List.replicate 10000 0) 1 = .blockedAwaitingSpace ∧
    (EmitOutcome.blockedAwaitingSpace = .enqueued (List.replicate 10000 0 ++ [1])
      → False) := by
  constructor
  · unfold emitEvent
    rw [if_neg (by simp),
      if_neg (by rw [List.length_replicate]; exact lt_irrefl 10000)]
  · intro h
    cases h

end VerisMCP
